import Mathlib

/-!
Verification development for the pinecone-client repository.

The definitions below are shallow embeddings of the request and response
shaping logic of the client: the recursive null sanitizer from utils.ts,
the batched upsert loop, the hybrid score normalizer and the query
pipeline from pinecone-client.ts, the error translation hook from
fetch-api.ts, and the configuration resolution from the constructor.
JavaScript values are modelled by the inductive type JVal, JavaScript
numbers by rationals, and JavaScript objects at the top level of a
request payload by association lists of string keys and JVal values.
-/

set_option autoImplicit false

namespace PineconeModel

/--
Model of a JSON-compatible JavaScript value. The constructors arrNil,
arrCons, objNil and objCons encode arrays and objects as right-nested
chains so that all functions below are structural recursions that the
kernel can evaluate. The undef constructor models the JavaScript value
undefined, which appears when a deleted array slot leaves a hole and when
an absent property is spread into a result object.
-/
inductive JVal where
  | null
  | undef
  | bool (b : Bool)
  | num (q : ℚ)
  | str (s : String)
  | arrNil
  | arrCons (hd : JVal) (tl : JVal)
  | objNil
  | objCons (key : String) (val : JVal) (tl : JVal)
deriving DecidableEq, Repr

namespace JVal

/--
Model of the JavaScript test (typeof v == 'object') for a non-null value:
true exactly for arrays and plain objects. null is tested separately in
the source before this test is reached.
-/
def isObjType : JVal → Bool
  | .arrNil => true
  | .arrCons _ _ => true
  | .objNil => true
  | .objCons _ _ _ => true
  | _ => false

end JVal

/--
Model of removeNullValuesFromObject from utils.ts applied to a defined
value. The source iterates with a for-in loop over the own keys of the
argument: a key whose value is null is deleted, and a key whose value has
typeof object is sanitized recursively in place. On an array the same
loop runs over the indices, so deleting a null element leaves a hole
(modelled by undef) and object-typed elements are sanitized recursively;
the loop does not run on primitive values, which are returned unchanged.
-/
def rnvCore : JVal → JVal
  | .objCons k v tl =>
    if v = .null then rnvCore tl
    else if v.isObjType then .objCons k (rnvCore v) (rnvCore tl)
    else .objCons k v (rnvCore tl)
  | .arrCons v tl =>
    if v = .null then .arrCons .undef (rnvCore tl)
    else if v.isObjType then .arrCons (rnvCore v) (rnvCore tl)
    else .arrCons v (rnvCore tl)
  | v => v

/--
Model of removeNullValuesFromObject from utils.ts including the
undefined guard: an undefined argument is returned as undefined, any
other argument is processed by the for-in loop modelled by rnvCore.
-/
def removeNullValuesFromObject : Option JVal → Option JVal
  | none => none
  | some v => some (rnvCore v)

/--
Lookup of a property on a JVal, modelling JavaScript property access
body.key on the objCons encoding. Access on a non-object value yields
none, matching the undefined result in JavaScript.
-/
def jlookup : JVal → String → Option JVal
  | .objCons k v tl, key => if k = key then some v else jlookup tl key
  | _, _ => none

/--
Decidable check that a value contains, at any depth, an object entry or
array slot holding null.
-/
def hasNullEntry : JVal → Bool
  | .objCons _ v tl => v = JVal.null || hasNullEntry v || hasNullEntry tl
  | .arrCons v tl => v = JVal.null || hasNullEntry v || hasNullEntry tl
  | _ => false

/--
Value stored for a kept object entry by the sanitizer: object-typed
values are sanitized recursively, primitive values are kept unchanged.
This mirrors the else-if branch of the for-in loop in utils.ts.
-/
def rnvEntryVal (v : JVal) : JVal :=
  if v.isObjType then rnvCore v else v

/- Top-level request payloads are modelled as association lists. -/

/--
Lookup of a key in a top-level payload object, modelling JavaScript
property access on an object with unique keys.
-/
def getField : List (String × JVal) → String → Option JVal
  | [], _ => none
  | (k, v) :: tl, key => if k = key then some v else getField tl key

/--
Keys destructured away from the rest spread by removeNullValues in
utils.ts.
-/
def specialKey (k : String) : Bool :=
  k == "filter" || k == "metadata" || k == "setMetadata"

/--
Value bound to one of the three sanitized keys in the result of
removeNullValues: the source computes removeNullValuesFromObject of the
destructured property, which is undefined when the property is absent.
-/
def sanitizeOptField : Option JVal → JVal
  | none => .undef
  | some v => rnvCore v

/--
Model of removeNullValues from utils.ts applied to a defined payload:
the filter, metadata and setMetadata properties are destructured out,
each is sanitized with removeNullValuesFromObject, and every remaining
property is spread into the result unchanged.
-/
def removeNullValuesReq (fs : List (String × JVal)) : List (String × JVal) :=
  ("filter", sanitizeOptField (getField fs "filter")) ::
  ("metadata", sanitizeOptField (getField fs "metadata")) ::
  ("setMetadata", sanitizeOptField (getField fs "setMetadata")) ::
  fs.filter (fun kv => !specialKey kv.1)

/--
Model of removeNullValues from utils.ts including the undefined guard.
-/
def removeNullValues : Option (List (String × JVal)) → Option (List (String × JVal))
  | none => none
  | some fs => some (removeNullValuesReq fs)

/-! Hybrid score normalization, from pinecone-client.ts. -/

/--
Model of the SparseValues type from types.ts: parallel arrays of indices
and values.
-/
structure SparseValues where
  indices : List ℕ
  values : List ℚ
deriving DecidableEq, Repr

/--
Model of hybridScoreNorm from pinecone-client.ts: throws when alpha is
outside the closed interval from 0 to 1, otherwise returns the dense
vector scaled by alpha and a sparse vector with the same indices and the
values scaled by one minus alpha.
-/
def hybridScoreNorm (dense : List ℚ) (sparse : SparseValues) (alpha : ℚ) :
    Except String (List ℚ × SparseValues) :=
  if alpha < 0 ∨ 1 < alpha then .error "Alpha must be between 0 and 1"
  else .ok (dense.map (fun v => v * alpha),
    { indices := sparse.indices, values := sparse.values.map (fun v => v * (1 - alpha)) })

/-! Query pipeline, from pinecone-client.ts. -/

/--
Model of the exactly-one-of constraint that RequireExactlyOne imposes on
the vector and id members of QueryParams in types.ts: a well-typed value
carries exactly one of a dense query vector or a query-by-id string.
-/
inductive QueryVectorOrId where
  | vec (values : List ℚ)
  | byId (id : String)
deriving DecidableEq, Repr

/--
Model of the QueryParams type from types.ts as consumed by the query
method in pinecone-client.ts: topK, optional filter, include flags,
exactly one of vector or id, and the library-added sparseVector,
minScore and hybridAlpha members.
-/
structure QueryParamsM where
  topK : ℕ
  filter : Option JVal
  includeMetadata : Option Bool
  includeValues : Option Bool
  vectorOrId : QueryVectorOrId
  sparseVector : Option SparseValues
  minScore : Option ℚ
  hybridAlpha : Option ℚ
deriving DecidableEq, Repr

/--
Reading the vector member of query parameters: defined exactly when the
exactly-one-of choice is a dense vector.
-/
def QueryParamsM.vector (p : QueryParamsM) : Option (List ℚ) :=
  match p.vectorOrId with
  | .vec v => some v
  | .byId _ => none

/--
Reading the id member of query parameters: defined exactly when the
exactly-one-of choice is a query by id.
-/
def QueryParamsM.idParam (p : QueryParamsM) : Option String :=
  match p.vectorOrId with
  | .vec _ => none
  | .byId i => some i

/--
Encoding of a list of numbers as a JVal array, used for the vector
member of a request body.
-/
def encodeNumList : List ℚ → JVal
  | [] => .arrNil
  | q :: tl => .arrCons (.num q) (encodeNumList tl)

/--
Encoding of sparse values as a JVal object with indices and values
members.
-/
def encodeSparse (s : SparseValues) : JVal :=
  .objCons "indices" (encodeNumList (s.indices.map (fun n => (n : ℚ))))
    (.objCons "values" (encodeNumList s.values) .objNil)

/--
Value bound to the namespace key of a request body: the configured
namespace string, or undefined when no namespace was configured.
-/
def namespaceVal : Option String → JVal
  | none => .undef
  | some s => .str s

/--
Entry list contributed by an optional payload member: a property is
present exactly when the caller supplied the member.
-/
def optEntry (key : String) : Option JVal → List (String × JVal)
  | none => []
  | some v => [(key, v)]

/--
Model of the restParams object inside the query method: the caller
parameters minus the destructured hybridAlpha and minScore members, with
the vector and sparseVector members possibly replaced by the hybrid
normalization. Neither minScore nor hybridAlpha occurs among its keys.
-/
def restParamsList (p : QueryParamsM) (vec : Option (List ℚ)) (sv : Option SparseValues) :
    List (String × JVal) :=
  ("topK", .num (p.topK : ℚ)) ::
    (optEntry "filter" p.filter ++
      optEntry "includeMetadata" (p.includeMetadata.map .bool) ++
      optEntry "includeValues" (p.includeValues.map .bool) ++
      optEntry "vector" (vec.map encodeNumList) ++
      optEntry "id" (p.idParam.map .str) ++
      optEntry "sparseVector" (sv.map encodeSparse))

/--
Request body posted to the query endpoint: the configured namespace
spread together with removeNullValues of restParams, as in the source
post call.
-/
def assembleQueryBody (ns : Option String) (p : QueryParamsM) (vec : Option (List ℚ))
    (sv : Option SparseValues) : List (String × JVal) :=
  ("namespace", namespaceVal ns) :: removeNullValuesReq (restParamsList p vec sv)

/--
Validation and body construction phase of the query method, everything
the source does before the network request: when hybridAlpha is
supplied, both vector and sparseVector must be present, and the pair is
replaced by the result of hybridScoreNorm; the body is then assembled
from the namespace and the sanitized restParams.
-/
def buildQueryBody (ns : Option String) (p : QueryParamsM) :
    Except String (List (String × JVal)) :=
  match p.hybridAlpha with
  | none => .ok (assembleQueryBody ns p p.vector p.sparseVector)
  | some a =>
    match p.vector, p.sparseVector with
    | some v, some sv =>
      match hybridScoreNorm v sv a with
      | .error e => .error e
      | .ok pair => .ok (assembleQueryBody ns p (some pair.1) (some pair.2))
    | _, _ => .error "Hybrid queries require vector and sparseVector parameters."

/--
Model of one match of a query response.
-/
structure QueryMatch where
  id : String
  score : ℚ
  values : Option (List ℚ)
  metadata : Option JVal
deriving DecidableEq, Repr

/--
Model of a query response from the remote service.
-/
structure QueryResponse where
  nspace : String
  matchList : List QueryMatch
deriving DecidableEq, Repr

/--
Model of the query method from pinecone-client.ts. The remote service is
an argument mapping a request body to a response. The function returns
the result delivered to the caller together with the list of request
bodies actually posted, so that theorems can speak about what was sent:
on a validation error nothing is posted, otherwise exactly one request
is posted and, when minScore was supplied as a number, the matches of
the response are filtered locally afterwards.
-/
def queryRun (remote : List (String × JVal) → QueryResponse) (ns : Option String)
    (p : QueryParamsM) : Except String QueryResponse × List (List (String × JVal)) :=
  match buildQueryBody ns p with
  | .error e => (.error e, [])
  | .ok body =>
    let results := remote body
    match p.minScore with
    | some m =>
      (.ok { results with matchList := results.matchList.filter (fun r => decide (m ≤ r.score)) },
        [body])
    | none => (.ok results, [body])

/-! Batched upsert, from pinecone-client.ts. -/

/--
Model of the batch size defaulting expression in the upsert method: the
or-expression yields 50 both when batchSize is not supplied and when it
is the falsy number 0.
-/
def effectiveBatchSize : Option ℕ → ℕ
  | none => 50
  | some b => if b = 0 then 50 else b

/--
Fuel-indexed model of the chunking loop of the upsert method: starting
at index i the loop takes the slice from i to i plus batchSize and then
advances i by batchSize. Each iteration consumes at least one element
when the batch size is positive, so a fuel equal to the list length is
enough; the fuel only makes the recursion structural.
-/
def chunksOfFuel {α : Type} (bs : ℕ) : ℕ → List α → List (List α)
  | 0, _ => []
  | _, [] => []
  | fuel + 1, v :: vs => ((v :: vs).take bs) :: chunksOfFuel bs fuel (vs.drop (bs - 1))

/--
Chunking of the vectors list performed by the upsert loop.
-/
def chunksOf {α : Type} (bs : ℕ) (vs : List α) : List (List α) :=
  chunksOfFuel bs vs.length vs

/--
Model of one request body posted to the upsert endpoint: the configured
namespace and the vectors of the chunk, each sanitized by
removeNullValues as in the source map call.
-/
structure UpsertCall where
  nspace : Option String
  vectors : List (List (String × JVal))
deriving DecidableEq, Repr

/--
Construction of the upsert request body for one chunk.
-/
def mkUpsertCall (ns : Option String) (chunk : List (List (String × JVal))) : UpsertCall :=
  { nspace := ns, vectors := chunk.map removeNullValuesReq }

/--
Model of the sequential posting loop of the upsert method. The remote
service is an argument mapping the call number and the request body to
an outcome. The function returns the calls actually posted, in order,
and the propagated error if some call failed: a failing call ends the
loop immediately, so no later chunk is posted.
-/
def sendChunksFrom (post : ℕ → UpsertCall → Except String Unit) (ns : Option String) :
    ℕ → List (List (List (String × JVal))) → List UpsertCall × Option String
  | _, [] => ([], none)
  | i, c :: rest =>
    let call := mkUpsertCall ns c
    match post i call with
    | .error e => ([call], some e)
    | .ok _ =>
      let r := sendChunksFrom post ns (i + 1) rest
      (call :: r.1, r.2)

/--
Model of the upsert method from pinecone-client.ts: resolve the batch
size, chunk the vectors, and post the chunks sequentially.
-/
def upsertRun (post : ℕ → UpsertCall → Except String Unit) (ns : Option String)
    (vectors : List (List (String × JVal))) (batchSize : Option ℕ) :
    List UpsertCall × Option String :=
  sendChunksFrom post ns 0 (chunksOf (effectiveBatchSize batchSize) vectors)

/-! Error translation, from fetch-api.ts. -/

/--
Model of JavaScript truthiness on a JVal.
-/
def jsTruthy : JVal → Bool
  | .null => false
  | .undef => false
  | .bool b => b
  | .num q => q ≠ 0
  | .str s => s ≠ ""
  | _ => true

/--
Model of the transport error handed to the beforeError hook: the HTTP
status of the response, whether the response carries a body, and the
outcome of parsing that body as JSON, where none models a parse failure.
-/
structure HttpErrorModel where
  status : ℕ
  hasBody : Bool
  parsedBody : Option JVal
deriving DecidableEq, Repr

/--
Outcome of the beforeError hook: either a typed PineconeError carrying
the message, code and details read from the body, the HTTP status and
the original error as cause, or the original transport error returned
unchanged.
-/
inductive BeforeErrorResult where
  | pineconeError (message : JVal) (code : Option JVal) (details : Option JVal)
      (status : ℕ) (cause : HttpErrorModel)
  | original (e : HttpErrorModel)
deriving DecidableEq, Repr

/--
Discriminator for the outcome of the hook: true exactly when the caller
receives a typed PineconeError rather than the original transport error.
-/
def BeforeErrorResult.isPineconeError : BeforeErrorResult → Bool
  | .pineconeError _ _ _ _ _ => true
  | .original _ => false

/--
Model of the beforeError hook installed by createApiInstance in
fetch-api.ts: when the response has a body that parses as JSON and the
message property of the parsed body is truthy, a PineconeError is
returned carrying the message, the code and details properties, the
response status and the original error as cause; in every other case,
including a parse failure and a falsy message, the original error is
returned unchanged.
-/
def beforeError (e : HttpErrorModel) : BeforeErrorResult :=
  if e.hasBody then
    match e.parsedBody with
    | some body =>
      match jlookup body "message" with
      | some m =>
        if jsTruthy m then
          .pineconeError m (jlookup body "code") (jlookup body "details") e.status e
        else .original e
      | none => .original e
    | none => .original e
  else .original e

/-! Constructor configuration resolution, from pinecone-client.ts. -/

/--
Model of the JavaScript or-expression on an optional string, as used for
config.apiKey and the environment variable: the left operand wins
exactly when it is truthy, that is, present and non-empty.
-/
def jsOrStr (a b : Option String) : Option String :=
  match a with
  | some s => if s = "" then b else some s
  | none => b

/--
Truthiness of an optional string: false for an absent value and for the
empty string.
-/
def strTruthy : Option String → Bool
  | none => false
  | some s => s ≠ ""

/--
Model of the constructor of PineconeClient up to the creation of the api
instance: resolve apiKey and baseUrl from the explicit config with the
environment variable as fallback, and fail with the corresponding
configuration error when a resolved value is still absent or empty. No
network request is involved; the api instance is only created after both
checks pass.
-/
def resolveConfig (cfgApiKey cfgBaseUrl envApiKey envBaseUrl : Option String) :
    Except String (String × String) :=
  match jsOrStr cfgApiKey envApiKey with
  | none => .error "Missing Pinecone API key. Please provide one in the config or set the PINECONE_API_KEY environment variable."
  | some k =>
    if k = "" then .error "Missing Pinecone API key. Please provide one in the config or set the PINECONE_API_KEY environment variable."
    else
      match jsOrStr cfgBaseUrl envBaseUrl with
      | none => .error "Missing Pinecone base URL. Please provide one in the config or set the PINECONE_BASE_URL environment variable."
      | some u =>
        if u = "" then .error "Missing Pinecone base URL. Please provide one in the config or set the PINECONE_BASE_URL environment variable."
        else .ok (k, u)

/--
Request body posted to the delete endpoint by the delete method: the
configured namespace spread together with removeNullValues of the
caller parameters.
-/
def deleteRequestBody (ns : Option String) (params : List (String × JVal)) :
    List (String × JVal) :=
  ("namespace", namespaceVal ns) :: removeNullValuesReq params

/--
Decidable equality of request outcomes, used to evaluate concrete runs
of the models returning an Except value.
-/
instance {ε α : Type} [DecidableEq ε] [DecidableEq α] : DecidableEq (Except ε α) := fun a b =>
  match a, b with
  | .ok x, .ok y => if h : x = y then .isTrue (by rw [h]) else .isFalse (by simp [h])
  | .error x, .error y => if h : x = y then .isTrue (by rw [h]) else .isFalse (by simp [h])
  | .ok _, .error _ => .isFalse (by simp)
  | .error _, .ok _ => .isFalse (by simp)

/--
Shape check for the tail of an object chain in the JVal encoding.
-/
def isObjTail : JVal → Bool
  | .objNil => true
  | .objCons _ _ _ => true
  | _ => false

/--
Shape check for the tail of an array chain in the JVal encoding.
-/
def isArrTail : JVal → Bool
  | .arrNil => true
  | .arrCons _ _ => true
  | _ => false

/--
Well-formedness of the JVal encoding: every object chain has an object
chain as tail and every array chain has an array chain as tail, so that
a value of the encoding denotes an actual JavaScript value. Every value
built from the empty chains by consing entries is well formed.
-/
def wf : JVal → Bool
  | .objCons _ v tl => wf v && isObjTail tl && wf tl
  | .arrCons v tl => wf v && isArrTail tl && wf tl
  | _ => true

/-! Helper lemmas about the null sanitizer. -/

theorem hasNullEntry_of_not_objType {v : JVal} (h : v.isObjType = false) :
    hasNullEntry v = false := by
  cases v <;> simp_all [JVal.isObjType, hasNullEntry]

theorem rnvCore_wf_shape :
    ∀ v : JVal, wf v = true →
      wf (rnvCore v) = true ∧
      (isObjTail v = true → isObjTail (rnvCore v) = true) ∧
      (isArrTail v = true → isArrTail (rnvCore v) = true) := by
  intro v
  induction v with
  | null => intro _; exact ⟨rfl, by simp [isObjTail, rnvCore], by simp [isArrTail, rnvCore]⟩
  | undef => intro _; exact ⟨rfl, by simp [isObjTail, rnvCore], by simp [isArrTail, rnvCore]⟩
  | bool b => intro _; exact ⟨rfl, by simp [isObjTail, rnvCore], by simp [isArrTail, rnvCore]⟩
  | num q => intro _; exact ⟨rfl, by simp [isObjTail, rnvCore], by simp [isArrTail, rnvCore]⟩
  | str s => intro _; exact ⟨rfl, by simp [isObjTail, rnvCore], by simp [isArrTail, rnvCore]⟩
  | arrNil => intro _; exact ⟨rfl, by simp [isObjTail, rnvCore], by simp [isArrTail, rnvCore]⟩
  | objNil => intro _; exact ⟨rfl, by simp [isObjTail, rnvCore], by simp [isArrTail, rnvCore]⟩
  | objCons k v tl ihv ihtl =>
    intro hwf
    simp only [wf, Bool.and_eq_true] at hwf
    obtain ⟨⟨hv, htl⟩, hwtl⟩ := hwf
    have ih1 := ihv hv
    have ih2 := ihtl hwtl
    by_cases hn : v = JVal.null
    · subst hn
      simp only [rnvCore, if_pos rfl]
      refine ⟨ih2.1, fun _ => ih2.2.1 htl, fun h => ?_⟩
      cases tl <;> simp_all [isObjTail, isArrTail]
    · by_cases ho : v.isObjType = true
      · simp only [rnvCore, if_neg hn, if_pos ho]
        refine ⟨?_, fun _ => rfl, fun h => by simp [isObjTail, isArrTail] at h ⊢⟩
        · simp only [wf, Bool.and_eq_true]
          exact ⟨⟨ih1.1, ih2.2.1 htl⟩, ih2.1⟩
      · simp only [rnvCore, if_neg hn, if_neg ho]
        refine ⟨?_, fun _ => rfl, fun h => by simp [isObjTail, isArrTail] at h ⊢⟩
        · simp only [wf, Bool.and_eq_true]
          exact ⟨⟨hv, ih2.2.1 htl⟩, ih2.1⟩
  | arrCons v tl ihv ihtl =>
    intro hwf
    simp only [wf, Bool.and_eq_true] at hwf
    obtain ⟨⟨hv, htl⟩, hwtl⟩ := hwf
    have ih1 := ihv hv
    have ih2 := ihtl hwtl
    by_cases hn : v = JVal.null
    · subst hn
      simp only [rnvCore, if_pos rfl]
      refine ⟨?_, fun h => by simp [isObjTail, isArrTail] at h ⊢, fun _ => rfl⟩
      simp only [wf, Bool.and_eq_true]
      exact ⟨⟨by simp [wf], ih2.2.2 htl⟩, ih2.1⟩
    · by_cases ho : v.isObjType = true
      · simp only [rnvCore, if_neg hn, if_pos ho]
        refine ⟨?_, fun h => by simp [isObjTail, isArrTail] at h ⊢, fun _ => rfl⟩
        simp only [wf, Bool.and_eq_true]
        exact ⟨⟨ih1.1, ih2.2.2 htl⟩, ih2.1⟩
      · simp only [rnvCore, if_neg hn, if_neg ho]
        refine ⟨?_, fun h => by simp [isObjTail, isArrTail] at h ⊢, fun _ => rfl⟩
        simp only [wf, Bool.and_eq_true]
        exact ⟨⟨hv, ih2.2.2 htl⟩, ih2.1⟩

theorem isObjTail_isObjType {v : JVal} (h : isObjTail v = true) : v.isObjType = true := by
  cases v <;> simp_all [isObjTail, JVal.isObjType]

theorem isArrTail_isObjType {v : JVal} (h : isArrTail v = true) : v.isObjType = true := by
  cases v <;> simp_all [isArrTail, JVal.isObjType]

theorem rnvCore_objType {v : JVal} (hw : wf v = true) (h : v.isObjType = true) :
    (rnvCore v).isObjType = true := by
  cases v with
  | arrNil => simpa [rnvCore] using h
  | objNil => simpa [rnvCore] using h
  | arrCons w tl =>
    by_cases hn : w = JVal.null
    · simp [rnvCore, hn, JVal.isObjType]
    · simp only [rnvCore, if_neg hn]
      split <;> simp [JVal.isObjType]
  | objCons k w tl =>
    simp only [wf, Bool.and_eq_true] at hw
    obtain ⟨⟨hww, htl⟩, hwtl⟩ := hw
    by_cases hn : w = JVal.null
    · have h2 := isObjTail_isObjType ((rnvCore_wf_shape tl hwtl).2.1 htl)
      simpa [rnvCore, hn] using h2
    · simp only [rnvCore, if_neg hn]
      split <;> simp [JVal.isObjType]
  | null => simp [JVal.isObjType] at h
  | undef => simp [JVal.isObjType] at h
  | bool b => simp [JVal.isObjType] at h
  | num q => simp [JVal.isObjType] at h
  | str s => simp [JVal.isObjType] at h

theorem rnvCore_ne_null {v : JVal} (hw : wf v = true) (h : v.isObjType = true) :
    rnvCore v ≠ JVal.null := by
  have := rnvCore_objType hw h
  intro he
  rw [he] at this
  simp [JVal.isObjType] at this

theorem rnvCore_no_null : ∀ v : JVal, wf v = true → hasNullEntry (rnvCore v) = false := by
  intro v
  induction v with
  | null => intro _; simp [rnvCore, hasNullEntry]
  | undef => intro _; simp [rnvCore, hasNullEntry]
  | bool b => intro _; simp [rnvCore, hasNullEntry]
  | num q => intro _; simp [rnvCore, hasNullEntry]
  | str s => intro _; simp [rnvCore, hasNullEntry]
  | arrNil => intro _; simp [rnvCore, hasNullEntry]
  | objNil => intro _; simp [rnvCore, hasNullEntry]
  | objCons k v tl ihv ihtl =>
    intro hwf
    simp only [wf, Bool.and_eq_true] at hwf
    obtain ⟨⟨hv, htl⟩, hwtl⟩ := hwf
    by_cases hn : v = JVal.null
    · subst hn; simpa [rnvCore] using ihtl hwtl
    · by_cases ho : v.isObjType = true
      · have h1 := rnvCore_ne_null hv ho
        simp [rnvCore, if_neg hn, if_pos ho, hasNullEntry, h1, ihv hv, ihtl hwtl]
      · have ho' : v.isObjType = false := by simpa using ho
        simp [rnvCore, if_neg hn, if_neg ho, hasNullEntry, hn,
          hasNullEntry_of_not_objType ho', ihtl hwtl]
  | arrCons v tl ihv ihtl =>
    intro hwf
    simp only [wf, Bool.and_eq_true] at hwf
    obtain ⟨⟨hv, htl⟩, hwtl⟩ := hwf
    by_cases hn : v = JVal.null
    · subst hn
      simp [rnvCore, hasNullEntry, ihtl hwtl]
    · by_cases ho : v.isObjType = true
      · have h1 := rnvCore_ne_null hv ho
        simp [rnvCore, if_neg hn, if_pos ho, hasNullEntry, h1, ihv hv, ihtl hwtl]
      · have ho' : v.isObjType = false := by simpa using ho
        simp [rnvCore, if_neg hn, if_neg ho, hasNullEntry, hn,
          hasNullEntry_of_not_objType ho', ihtl hwtl]

theorem rnvCore_jlookup :
    ∀ fs : JVal, ∀ key : String, ∀ v : JVal, wf fs = true →
      jlookup fs key = some v → v ≠ JVal.null →
      jlookup (rnvCore fs) key = some (rnvEntryVal v) := by
  intro fs
  induction fs with
  | null => intro key v _ h; simp [jlookup] at h
  | undef => intro key v _ h; simp [jlookup] at h
  | bool b => intro key v _ h; simp [jlookup] at h
  | num q => intro key v _ h; simp [jlookup] at h
  | str s => intro key v _ h; simp [jlookup] at h
  | arrNil => intro key v _ h; simp [jlookup] at h
  | objNil => intro key v _ h; simp [jlookup] at h
  | arrCons w tl ihv ihtl => intro key v _ h; simp [jlookup] at h
  | objCons k w tl ihv ihtl =>
    intro key v hwf hl hv
    simp only [wf, Bool.and_eq_true] at hwf
    obtain ⟨⟨hw, htl⟩, hwtl⟩ := hwf
    by_cases hk : k = key
    · subst hk
      simp only [jlookup, if_pos rfl] at hl
      obtain rfl : w = v := by injection hl
      by_cases ho : w.isObjType = true
      · simp [rnvCore, if_neg hv, if_pos ho, jlookup, rnvEntryVal, ho]
      · simp [rnvCore, if_neg hv, if_neg ho, jlookup, rnvEntryVal, ho]
    · simp only [jlookup, if_neg hk] at hl
      by_cases hn : w = JVal.null
      · subst hn
        simpa [rnvCore] using ihtl key v hwtl hl hv
      · by_cases ho : w.isObjType = true
        · simp only [rnvCore, if_neg hn, if_pos ho, jlookup, if_neg hk]
          exact ihtl key v hwtl hl hv
        · simp only [rnvCore, if_neg hn, if_neg ho, jlookup, if_neg hk]
          exact ihtl key v hwtl hl hv

theorem rnvCore_idem : ∀ v : JVal, wf v = true → rnvCore (rnvCore v) = rnvCore v := by
  intro v
  induction v with
  | null => intro _; rfl
  | undef => intro _; rfl
  | bool b => intro _; rfl
  | num q => intro _; rfl
  | str s => intro _; rfl
  | arrNil => intro _; rfl
  | objNil => intro _; rfl
  | objCons k v tl ihv ihtl =>
    intro hwf
    simp only [wf, Bool.and_eq_true] at hwf
    obtain ⟨⟨hv, htl⟩, hwtl⟩ := hwf
    by_cases hn : v = JVal.null
    · subst hn; simpa [rnvCore] using ihtl hwtl
    · by_cases ho : v.isObjType = true
      · have h1 := rnvCore_ne_null hv ho
        have h2 := rnvCore_objType hv ho
        simp [rnvCore, if_neg hn, if_pos ho, if_neg h1, if_pos h2, ihv hv, ihtl hwtl]
      · simp [rnvCore, if_neg hn, if_neg ho, ihtl hwtl]
  | arrCons v tl ihv ihtl =>
    intro hwf
    simp only [wf, Bool.and_eq_true] at hwf
    obtain ⟨⟨hv, htl⟩, hwtl⟩ := hwf
    by_cases hn : v = JVal.null
    · subst hn
      simp [rnvCore, hasNullEntry, JVal.isObjType, ihtl hwtl]
    · by_cases ho : v.isObjType = true
      · have h1 := rnvCore_ne_null hv ho
        have h2 := rnvCore_objType hv ho
        simp [rnvCore, if_neg hn, if_pos ho, if_neg h1, if_pos h2, ihv hv, ihtl hwtl]
      · simp [rnvCore, if_neg hn, if_neg ho, ihtl hwtl]

/-! Claim theorems for the null sanitizer. -/

/--
C1, counterexample. The claim states that every array-typed value is
passed through verbatim by removeNullValuesFromObject, the sanitizer
recursing into nested mappings only. On the concrete mapping binding the
key a to the array holding the single object with a null-valued key b,
the sanitizer does recurse into the array and strips the nested null
key, so the value bound to a in the result differs from the original
array.
-/
theorem c1_sanitizer_counterexample :
    jlookup
        (rnvCore (.objCons "a" (.arrCons (.objCons "b" .null .objNil) .arrNil) .objNil)) "a"
      ≠ some (JVal.arrCons (.objCons "b" .null .objNil) .arrNil) := by
  decide

/--
C1, amended. For every well-formed nested mapping, the sanitized result
has no entry bound to null at any nesting depth; every key bound to a
non-null value is preserved, bound to the recursively sanitized value,
which for a primitive value is the original value unchanged; the
sanitizer also recurses into array-typed values, where a null element is
deleted leaving an undefined hole and object elements are sanitized in
place, rather than passing arrays through verbatim, as the concrete
final conjunct shows; undefined input yields undefined.
-/
theorem c1_sanitizer_amended :
    removeNullValuesFromObject none = none ∧
    (∀ v : JVal, wf v = true → hasNullEntry (rnvCore v) = false) ∧
    (∀ fs : JVal, ∀ key : String, ∀ v : JVal, wf fs = true →
      jlookup fs key = some v → v ≠ JVal.null →
      jlookup (rnvCore fs) key = some (rnvEntryVal v)) ∧
    (∀ v : JVal, v.isObjType = false → rnvEntryVal v = v) ∧
    rnvCore
        (.objCons "a"
          (.arrCons .null
            (.arrCons (.objCons "b" .null .objNil) (.arrCons (.num 2) .arrNil)))
          .objNil)
      = .objCons "a"
          (.arrCons .undef (.arrCons .objNil (.arrCons (.num 2) .arrNil))) .objNil := by
  refine ⟨rfl, rnvCore_no_null, rnvCore_jlookup, ?_, by decide⟩
  intro v hv
  simp [rnvEntryVal, hv]

/--
C1, witness for the amended theorem: on the concrete mapping binding k
to the number 5 and dropping a null-valued key n, the sanitized result
still binds k to the unchanged number 5 and has no null entry.
-/
theorem c1_sanitizer_witness :
    jlookup
        (rnvCore (.objCons "n" .null (.objCons "k" (.num 5) .objNil))) "k"
      = some (rnvEntryVal (.num 5)) ∧
    hasNullEntry (rnvCore (.objCons "n" .null (.objCons "k" (.num 5) .objNil))) = false :=
  ⟨c1_sanitizer_amended.2.2.1
      (.objCons "n" .null (.objCons "k" (.num 5) .objNil)) "k" (.num 5)
      (by decide) (by decide) (by decide),
    c1_sanitizer_amended.2.1
      (.objCons "n" .null (.objCons "k" (.num 5) .objNil)) (by decide)⟩

/--
C9. The sanitizer is idempotent on every well-formed value, in
particular on every well-formed nested mapping: sanitizing an already
sanitized value yields the identical value, both for the core recursion
and for the undefined-accepting wrapper.
-/
theorem c9_sanitizer_idempotent :
    ∀ v : JVal, wf v = true →
      rnvCore (rnvCore v) = rnvCore v ∧
      removeNullValuesFromObject (removeNullValuesFromObject (some v))
        = removeNullValuesFromObject (some v) := by
  intro v hv
  refine ⟨rnvCore_idem v hv, ?_⟩
  simp [removeNullValuesFromObject, rnvCore_idem v hv]

/--
C9, witness: idempotence evaluated on a concrete mapping with a nested
null entry.
-/
theorem c9_sanitizer_witness :
    rnvCore (rnvCore (.objCons "a" (.objCons "b" .null .objNil) .objNil))
      = rnvCore (.objCons "a" (.objCons "b" .null .objNil) .objNil) :=
  (c9_sanitizer_idempotent (.objCons "a" (.objCons "b" .null .objNil) .objNil) (by decide)).1

/-! Claim theorem for the hybrid score normalizer. -/

/--
C6. For every dense vector, sparse vector and weight alpha, the hybrid
score normalizer fails with the validation error when alpha is below 0
or above 1; otherwise it succeeds with a dense vector of the same length
whose components are the input components multiplied by alpha, and a
sparse vector with the same indices as the input whose values are the
input values multiplied by one minus alpha. The final conjuncts evaluate
the concrete example of the claim and the two out-of-range weights.
-/
theorem c6_hybrid_norm :
    (∀ (dense : List ℚ) (sparse : SparseValues) (alpha : ℚ),
      alpha < 0 ∨ 1 < alpha →
      hybridScoreNorm dense sparse alpha = .error "Alpha must be between 0 and 1") ∧
    (∀ (dense : List ℚ) (sparse : SparseValues) (alpha : ℚ),
      0 ≤ alpha → alpha ≤ 1 →
      ∃ pair : List ℚ × SparseValues,
        hybridScoreNorm dense sparse alpha = .ok pair ∧
        pair.1.length = dense.length ∧
        (∀ i : ℕ, pair.1[i]? = (dense[i]?).map (fun v => v * alpha)) ∧
        pair.2.indices = sparse.indices ∧
        pair.2.values.length = sparse.values.length ∧
        (∀ i : ℕ,
          pair.2.values[i]? = (sparse.values[i]?).map (fun v => v * (1 - alpha)))) ∧
    hybridScoreNorm [2, 4] ⟨[0, 1], [10, 20]⟩ (1 / 2) = .ok ([1, 2], ⟨[0, 1], [5, 10]⟩) ∧
    hybridScoreNorm [2, 4] ⟨[0, 1], [10, 20]⟩ (13 / 10)
      = .error "Alpha must be between 0 and 1" ∧
    hybridScoreNorm [2, 4] ⟨[0, 1], [10, 20]⟩ (-(1 / 10))
      = .error "Alpha must be between 0 and 1" := by
  refine ⟨?_, ?_, by norm_num [hybridScoreNorm], by norm_num [hybridScoreNorm],
    by norm_num [hybridScoreNorm]⟩
  · intro dense sparse alpha h
    simp [hybridScoreNorm, h]
  · intro dense sparse alpha h0 h1
    have hc : ¬(alpha < 0 ∨ 1 < alpha) := by
      push_neg
      exact ⟨h0, h1⟩
    refine ⟨(dense.map (fun v => v * alpha),
      { indices := sparse.indices, values := sparse.values.map (fun v => v * (1 - alpha)) }),
      ?_, by simp, ?_, rfl, by simp, ?_⟩
    · simp [hybridScoreNorm, hc]
    · intro i
      simp [List.getElem?_map]
    · intro i
      simp [List.getElem?_map]

/--
C6, witness: the normalizer evaluated through the theorem at the weight
one half on the concrete vectors of the claim.
-/
theorem c6_hybrid_norm_witness :
    hybridScoreNorm [2, 4] ⟨[0, 1], [10, 20]⟩ (13 / 10)
      = .error "Alpha must be between 0 and 1" ∧
    ∃ pair : List ℚ × SparseValues,
      hybridScoreNorm [2, 4] ⟨[0, 1], [10, 20]⟩ (1 / 2) = .ok pair ∧
      pair.1.length = ([2, 4] : List ℚ).length ∧
      (∀ i : ℕ,
        pair.1[i]? = (([2, 4] : List ℚ)[i]?).map (fun v => v * (1 / 2))) ∧
      pair.2.indices = ([0, 1] : List ℕ) ∧
      pair.2.values.length = ([10, 20] : List ℚ).length ∧
      (∀ i : ℕ,
        pair.2.values[i]?
          = (([10, 20] : List ℚ)[i]?).map (fun v => v * (1 - 1 / 2))) :=
  ⟨c6_hybrid_norm.1 [2, 4] ⟨[0, 1], [10, 20]⟩ (13 / 10) (by norm_num),
    c6_hybrid_norm.2.1 [2, 4] ⟨[0, 1], [10, 20]⟩ (1 / 2) (by norm_num) (by norm_num)⟩

/-! Claim theorem for the exactly-one-of constraint on query parameters. -/

/--
C4. The QueryParams type constrains its vector and id members with
RequireExactlyOne, so a query call with neither or with both of them is
rejected by this static validation and can never reach the network: in
the model, every representable query parameter value has exactly one of
the vector and id members set.
-/
theorem c4_exactly_one_of :
    ∀ p : QueryParamsM, Bool.xor p.vector.isSome p.idParam.isSome = true := by
  intro p
  cases h : p.vectorOrId <;> simp [QueryParamsM.vector, QueryParamsM.idParam, h]

/-! Helper lemmas about selective sanitization of request payloads. -/

theorem getField_append_of_none {l1 l2 : List (String × JVal)} {k : String}
    (h : getField l1 k = none) : getField (l1 ++ l2) k = getField l2 k := by
  induction l1 with
  | nil => rfl
  | cons kv tl ih =>
    obtain ⟨k', v⟩ := kv
    by_cases hk : k' = k
    · simp [getField, hk] at h
    · simp only [getField, if_neg hk] at h
      simpa [getField, hk] using ih h

theorem getField_optEntry_ne {k' k : String} (h : k' ≠ k) (o : Option JVal) :
    getField (optEntry k' o) k = none := by
  cases o <;> simp [optEntry, getField, h]

theorem specialKey_false_iff {k : String} :
    specialKey k = false ↔ k ≠ "filter" ∧ k ≠ "metadata" ∧ k ≠ "setMetadata" := by
  simp [specialKey, not_or, and_assoc]

theorem getField_filter_nonspecial {fs : List (String × JVal)} {k : String}
    (h : specialKey k = false) :
    getField (fs.filter (fun kv => !specialKey kv.1)) k = getField fs k := by
  induction fs with
  | nil => rfl
  | cons kv tl ih =>
    obtain ⟨k', v⟩ := kv
    by_cases hk : k' = k
    · subst hk
      simp [List.filter_cons, h, getField]
    · cases hs : specialKey k' with
      | true => simp [List.filter_cons, hs, getField, hk, ih]
      | false => simp [List.filter_cons, hs, getField, hk, ih]

theorem getField_removeNullValuesReq_nonspecial {fs : List (String × JVal)} {k : String}
    (h : specialKey k = false) :
    getField (removeNullValuesReq fs) k = getField fs k := by
  obtain ⟨h1, h2, h3⟩ := specialKey_false_iff.mp h
  have n1 : ¬("filter" = k) := fun he => h1 (Eq.symm he)
  have n2 : ¬("metadata" = k) := fun he => h2 (Eq.symm he)
  have n3 : ¬("setMetadata" = k) := fun he => h3 (Eq.symm he)
  simp only [removeNullValuesReq, getField, if_neg n1, if_neg n2, if_neg n3]
  exact getField_filter_nonspecial h

theorem mem_removeNullValuesReq {fs : List (String × JVal)} {k : String} {v : JVal}
    (h : specialKey k = false) (hm : (k, v) ∈ fs) : (k, v) ∈ removeNullValuesReq fs := by
  have : (k, v) ∈ fs.filter (fun kv => !specialKey kv.1) := by
    rw [List.mem_filter]
    exact ⟨hm, by simp [h]⟩
  simp [removeNullValuesReq]
  tauto

/-! Claim theorem for selective sanitization. -/

/--
C8. The removeNullValues step sanitizes only the filter, metadata and
setMetadata members of a request payload: every other key keeps exactly
the value it had in the input, including a null value used as an
explicit instruction, while each of the three special keys is bound to
the sanitized form of its input value. The final conjuncts evaluate the
delete request body on a payload carrying a null deleteAll member
together with a filter needing sanitization.
-/
theorem c8_selective_sanitization :
    (∀ (fs : List (String × JVal)) (k : String), specialKey k = false →
      getField (removeNullValuesReq fs) k = getField fs k) ∧
    (∀ (fs : List (String × JVal)) (k : String) (v : JVal), specialKey k = false →
      (k, v) ∈ fs → (k, v) ∈ removeNullValuesReq fs) ∧
    (∀ fs : List (String × JVal),
      getField (removeNullValuesReq fs) "filter"
          = some (sanitizeOptField (getField fs "filter")) ∧
      getField (removeNullValuesReq fs) "metadata"
          = some (sanitizeOptField (getField fs "metadata")) ∧
      getField (removeNullValuesReq fs) "setMetadata"
          = some (sanitizeOptField (getField fs "setMetadata"))) ∧
    getField
        (deleteRequestBody none
          [("deleteAll", .null), ("filter", .objCons "a" .null .objNil)]) "deleteAll"
      = some JVal.null ∧
    getField
        (deleteRequestBody none
          [("deleteAll", .null), ("filter", .objCons "a" .null .objNil)]) "filter"
      = some JVal.objNil := by
  refine ⟨fun fs k h => getField_removeNullValuesReq_nonspecial h,
    fun fs k v h hm => mem_removeNullValuesReq h hm, ?_, by decide, by decide⟩
  intro fs
  refine ⟨by simp [removeNullValuesReq, getField], ?_, ?_⟩
  · have h1 : (("filter" : String) = "metadata") = False := by simp
    simp [removeNullValuesReq, getField, h1]
  · have h1 : (("filter" : String) = "setMetadata") = False := by simp
    have h2 : (("metadata" : String) = "setMetadata") = False := by simp
    simp [removeNullValuesReq, getField, h1, h2]

/--
C8, witness: the ids member of a delete payload passes through the
sanitization step unchanged.
-/
theorem c8_selective_sanitization_witness :
    getField (removeNullValuesReq [("ids", JVal.arrCons (.str "v1") .arrNil)]) "ids"
        = getField [("ids", JVal.arrCons (.str "v1") .arrNil)] "ids" ∧
    ("ids", JVal.arrCons (.str "v1") .arrNil)
        ∈ removeNullValuesReq [("ids", JVal.arrCons (.str "v1") .arrNil)] :=
  ⟨c8_selective_sanitization.1 [("ids", JVal.arrCons (.str "v1") .arrNil)] "ids" (by decide),
    c8_selective_sanitization.2.1 [("ids", JVal.arrCons (.str "v1") .arrNil)] "ids"
      (JVal.arrCons (.str "v1") .arrNil) (by decide) (by simp)⟩

/-! Claim theorems for error translation. -/

/--
C5, counterexample. The claim states that every failed response whose
body parses as JSON and contains a message field surfaces as a typed
PineconeError. The hook, however, tests the message for truthiness: on
the concrete failed response with status 400 and body consisting of a
message field holding the empty string, the original transport error is
surfaced unchanged and no PineconeError is produced.
-/
theorem c5_error_translation_counterexample :
    (beforeError
        { status := 400, hasBody := true,
          parsedBody := some (.objCons "message" (.str "") .objNil) }).isPineconeError
        = false ∧
    beforeError
        { status := 400, hasBody := true,
          parsedBody := some (.objCons "message" (.str "") .objNil) }
      = .original
        { status := 400, hasBody := true,
          parsedBody := some (.objCons "message" (.str "") .objNil) } := by
  exact ⟨by decide, by decide⟩

/--
C5, amended. For every failed response: if the body parses as JSON and
its message property is truthy (for a string, non-empty), the surfaced
error is a PineconeError carrying the message, the code property of the
body, the optional details property of the body, the HTTP status of the
response, and the original transport error as cause; if the body does
not parse as JSON, has no message property, or the message is falsy
(such as the empty string), the original transport error is surfaced
unchanged.
-/
theorem c5_error_translation_amended :
    (∀ (e : HttpErrorModel) (body m : JVal),
      e.hasBody = true → e.parsedBody = some body →
      jlookup body "message" = some m → jsTruthy m = true →
      beforeError e
        = .pineconeError m (jlookup body "code") (jlookup body "details") e.status e) ∧
    (∀ (e : HttpErrorModel) (body m : JVal),
      e.hasBody = true → e.parsedBody = some body →
      jlookup body "message" = some m → jsTruthy m = false →
      beforeError e = .original e) ∧
    (∀ (e : HttpErrorModel) (body : JVal),
      e.hasBody = true → e.parsedBody = some body →
      jlookup body "message" = none → beforeError e = .original e) ∧
    (∀ e : HttpErrorModel, e.parsedBody = none → beforeError e = .original e) ∧
    (∀ e : HttpErrorModel, e.hasBody = false → beforeError e = .original e) := by
  refine ⟨?_, ?_, ?_, ?_, ?_⟩
  · intro e body m hb hp hm ht
    simp [beforeError, hb, hp, hm, ht]
  · intro e body m hb hp hm ht
    simp [beforeError, hb, hp, hm, ht]
  · intro e body hb hp hm
    simp [beforeError, hb, hp, hm]
  · intro e hp
    by_cases hb : e.hasBody = true <;> simp [beforeError, hb, hp]
  · intro e hb
    simp [beforeError, hb]

/--
C5, witness for the amended theorem: a failed response with status 500
and a parsed body carrying a non-empty message and a numeric code
surfaces as the PineconeError built from that body.
-/
theorem c5_error_translation_witness :
    beforeError
        { status := 500, hasBody := true,
          parsedBody := some (.objCons "message" (.str "oops") (.objCons "code" (.num 3) .objNil)) }
      = .pineconeError (.str "oops") (some (.num 3)) none 500
          { status := 500, hasBody := true,
            parsedBody :=
              some (.objCons "message" (.str "oops") (.objCons "code" (.num 3) .objNil)) } :=
  c5_error_translation_amended.1
    { status := 500, hasBody := true,
      parsedBody := some (.objCons "message" (.str "oops") (.objCons "code" (.num 3) .objNil)) }
    (.objCons "message" (.str "oops") (.objCons "code" (.num 3) .objNil))
    (.str "oops") rfl rfl (by decide) (by decide)

/-! Claim theorem for constructor configuration resolution. -/

/--
C10. An explicitly supplied apiKey or baseUrl equal to the empty string
is treated as absent: resolution with an empty config string equals
resolution with no config string, so the environment variable is
consulted; a non-empty config string always wins over the environment;
and when both the config value and the environment variable are absent
or empty, construction fails with the corresponding configuration
error, which the model raises without any network interaction.
-/
theorem c10_config_resolution :
    (∀ u e1 e2 : Option String,
      resolveConfig (some "") u e1 e2 = resolveConfig none u e1 e2) ∧
    (∀ k e1 e2 : Option String,
      resolveConfig k (some "") e1 e2 = resolveConfig k none e1 e2) ∧
    (∀ (c : String) (e1 : Option String), c ≠ "" → jsOrStr (some c) e1 = some c) ∧
    (∀ ck bu ek eu : Option String, strTruthy (jsOrStr ck ek) = false →
      resolveConfig ck bu ek eu
        = .error "Missing Pinecone API key. Please provide one in the config or set the PINECONE_API_KEY environment variable.") ∧
    (∀ ck bu ek eu : Option String, strTruthy (jsOrStr ck ek) = true →
      strTruthy (jsOrStr bu eu) = false →
      resolveConfig ck bu ek eu
        = .error "Missing Pinecone base URL. Please provide one in the config or set the PINECONE_BASE_URL environment variable.") ∧
    (∀ s t : String, s ≠ "" → t ≠ "" →
      resolveConfig (some "") (some "") (some s) (some t) = .ok (s, t)) := by
  refine ⟨?_, ?_, ?_, ?_, ?_, ?_⟩
  · intro u e1 e2
    simp [resolveConfig, jsOrStr]
  · intro k e1 e2
    simp [resolveConfig, jsOrStr]
  · intro c e1 hc
    simp [jsOrStr, hc]
  · intro ck bu ek eu h
    cases hk : jsOrStr ck ek with
    | none => simp [resolveConfig, hk]
    | some s =>
      rw [hk] at h
      have hs : s = "" := by simpa [strTruthy] using h
      simp [resolveConfig, hk, hs]
  · intro ck bu ek eu hk hu
    cases hks : jsOrStr ck ek with
    | none => rw [hks] at hk; simp [strTruthy] at hk
    | some s =>
      rw [hks] at hk
      have hs : s ≠ "" := by simpa [strTruthy] using hk
      cases hus : jsOrStr bu eu with
      | none => simp [resolveConfig, hks, hs, hus]
      | some u =>
        rw [hus] at hu
        have hu' : u = "" := by simpa [strTruthy] using hu
        simp [resolveConfig, hks, hs, hus, hu']
  · intro s t hs ht
    simp [resolveConfig, jsOrStr, hs, ht]

/--
C10, witness: an empty config apiKey with an unset environment fails
with the API key configuration error, while empty config strings with
non-empty environment variables resolve to the environment values.
-/
theorem chunksOfFuel_join {α : Type} {bs : ℕ} (hbs : 0 < bs) :
    ∀ (fuel : ℕ) (vs : List α), vs.length ≤ fuel →
      (chunksOfFuel bs fuel vs).flatten = vs := by
  intro fuel
  induction fuel with
  | zero =>
    intro vs hv
    rw [Nat.le_zero, List.length_eq_zero] at hv
    subst hv
    rfl
  | succ fuel ih =>
    intro vs hv
    match vs with
    | [] => rfl
    | v :: tl =>
      obtain ⟨m, rfl⟩ : ∃ m, bs = m + 1 := ⟨bs - 1, (Nat.succ_pred_eq_of_pos hbs).symm⟩
      have hlen : (tl.drop m).length ≤ fuel := by
        have h1 : tl.length ≤ fuel := by
          simp only [List.length_cons] at hv
          omega
        calc (tl.drop m).length ≤ tl.length := by simp
          _ ≤ fuel := h1
      calc (chunksOfFuel (m + 1) (fuel + 1) (v :: tl)).flatten
          = (v :: tl).take (m + 1) ++ (chunksOfFuel (m + 1) fuel (tl.drop m)).flatten := rfl
        _ = v :: (tl.take m ++ tl.drop m) := by
            rw [List.take_succ_cons, ih (tl.drop m) hlen]
            rfl
        _ = v :: tl := by rw [List.take_append_drop]

theorem chunksOfFuel_sizes {α : Type} {bs : ℕ} (hbs : 0 < bs) :
    ∀ (fuel : ℕ) (vs : List α) (c : List α), c ∈ chunksOfFuel bs fuel vs →
      c.length ≤ bs ∧ c ≠ [] := by
  intro fuel
  induction fuel with
  | zero => intro vs c hc; simp [chunksOfFuel] at hc
  | succ fuel ih =>
    intro vs c hc
    match vs with
    | [] => simp [chunksOfFuel] at hc
    | v :: tl =>
      simp only [chunksOfFuel, List.mem_cons] at hc
      rcases hc with hc | hc
      · subst hc
        obtain ⟨m, rfl⟩ : ∃ m, bs = m + 1 := ⟨bs - 1, (Nat.succ_pred_eq_of_pos hbs).symm⟩
        constructor
        · simpa using Nat.min_le_left (m + 1) (v :: tl).length
        · simp [List.take_succ_cons]
      · exact ih (tl.drop (bs - 1)) c hc

theorem sendChunksFrom_ok (post : ℕ → UpsertCall → Except String Unit) (ns : Option String) :
    ∀ (chunks : List (List (List (String × JVal)))) (i : ℕ),
      (∀ (j : ℕ) (hj : j < chunks.length),
        post (i + j) (mkUpsertCall ns chunks[j]) = .ok ()) →
      sendChunksFrom post ns i chunks = (chunks.map (mkUpsertCall ns), none) := by
  intro chunks
  induction chunks with
  | nil => intro i h; rfl
  | cons c rest ih =>
    intro i h
    have h0 : post i (mkUpsertCall ns c) = .ok () := by simpa using h 0 (by simp)
    have hrest : sendChunksFrom post ns (i + 1) rest = (rest.map (mkUpsertCall ns), none) := by
      refine ih (i + 1) ?_
      intro j hj
      have := h (j + 1) (by simpa using Nat.succ_lt_succ hj)
      simpa [Nat.add_comm, Nat.add_assoc, Nat.add_left_comm] using this
    simp [sendChunksFrom, h0, hrest]

theorem sendChunksFrom_fail (post : ℕ → UpsertCall → Except String Unit) (ns : Option String) :
    ∀ (pre : List (List (List (String × JVal)))) (c : List (List (String × JVal)))
      (rest : List (List (List (String × JVal)))) (i : ℕ) (e : String),
      (∀ (j : ℕ) (hj : j < pre.length),
        post (i + j) (mkUpsertCall ns pre[j]) = .ok ()) →
      post (i + pre.length) (mkUpsertCall ns c) = .error e →
      sendChunksFrom post ns i (pre ++ c :: rest)
        = ((pre ++ [c]).map (mkUpsertCall ns), some e) := by
  intro pre
  induction pre with
  | nil =>
    intro c rest i e _ hf
    simp only [Nat.add_zero, List.length_nil] at hf
    simp [sendChunksFrom, hf]
  | cons p pre ih =>
    intro c rest i e h hf
    have h0 : post i (mkUpsertCall ns p) = .ok () := by simpa using h 0 (by simp)
    have hrest := ih c rest (i + 1) e
      (fun j hj => by
        have := h (j + 1) (by simpa using Nat.succ_lt_succ hj)
        simpa [Nat.add_comm, Nat.add_assoc, Nat.add_left_comm] using this)
      (by
        have : i + 1 + pre.length = i + (p :: pre).length := by
          simp [Nat.add_comm, Nat.add_assoc, Nat.add_left_comm]
        rw [this]
        exact hf)
    simp [sendChunksFrom, h0, hrest]

theorem getField_optEntry_self (k : String) (o : Option JVal) :
    getField (optEntry k o) k = o := by
  cases o <;> simp [optEntry, getField]

theorem getField_append_of_some {l1 l2 : List (String × JVal)} {k : String} {v : JVal}
    (h : getField l1 k = some v) : getField (l1 ++ l2) k = some v := by
  induction l1 with
  | nil => simp [getField] at h
  | cons kv tl ih =>
    obtain ⟨k', w⟩ := kv
    by_cases hk : k' = k
    · simp only [getField, if_pos hk] at h
      simp [getField, hk, h]
    · simp only [getField, if_neg hk] at h
      simpa [getField, hk] using ih h

theorem getField_restParams_minScore (p : QueryParamsM) (vec : Option (List ℚ))
    (sv : Option SparseValues) :
    getField (restParamsList p vec sv) "minScore" = none := by
  obtain ⟨tk, fl, im, iv, vid, sp, ms, ha⟩ := p
  cases fl <;> cases im <;> cases iv <;> cases vec <;> cases vid <;> cases sv <;>
    simp [restParamsList, optEntry, getField, QueryParamsM.idParam]

theorem getField_restParams_hybridAlpha (p : QueryParamsM) (vec : Option (List ℚ))
    (sv : Option SparseValues) :
    getField (restParamsList p vec sv) "hybridAlpha" = none := by
  obtain ⟨tk, fl, im, iv, vid, sp, ms, ha⟩ := p
  cases fl <;> cases im <;> cases iv <;> cases vec <;> cases vid <;> cases sv <;>
    simp [restParamsList, optEntry, getField, QueryParamsM.idParam]

theorem getField_restParams_vector (p : QueryParamsM) (vec : Option (List ℚ))
    (sv : Option SparseValues) :
    getField (restParamsList p vec sv) "vector" = vec.map encodeNumList := by
  obtain ⟨tk, fl, im, iv, vid, sp, ms, ha⟩ := p
  cases fl <;> cases im <;> cases iv <;> cases vec <;> cases vid <;> cases sv <;>
    simp [restParamsList, optEntry, getField, QueryParamsM.idParam]

theorem getField_restParams_sparseVector (p : QueryParamsM) (vec : Option (List ℚ))
    (sv : Option SparseValues) :
    getField (restParamsList p vec sv) "sparseVector" = sv.map encodeSparse := by
  obtain ⟨tk, fl, im, iv, vid, sp, ms, ha⟩ := p
  cases fl <;> cases im <;> cases iv <;> cases vec <;> cases vid <;> cases sv <;>
    simp [restParamsList, optEntry, getField, QueryParamsM.idParam]

theorem getField_assembleQueryBody {k : String} (hk : ¬("namespace" = k))
    (hsp : specialKey k = false) (ns : Option String) (p : QueryParamsM)
    (vec : Option (List ℚ)) (sv : Option SparseValues) :
    getField (assembleQueryBody ns p vec sv) k = getField (restParamsList p vec sv) k := by
  calc getField (assembleQueryBody ns p vec sv) k
      = if "namespace" = k then some (namespaceVal ns)
        else getField (removeNullValuesReq (restParamsList p vec sv)) k := rfl
    _ = getField (removeNullValuesReq (restParamsList p vec sv)) k := if_neg hk
    _ = getField (restParamsList p vec sv) k :=
        getField_removeNullValuesReq_nonspecial hsp

theorem buildQueryBody_ok {ns : Option String} {p : QueryParamsM}
    {B : List (String × JVal)} (h : buildQueryBody ns p = .ok B) :
    ∃ vec sv, B = assembleQueryBody ns p vec sv := by
  unfold buildQueryBody at h
  split at h
  · exact ⟨p.vector, p.sparseVector, by injection h with h; exact h.symm⟩
  · split at h
    · split at h
      · simp at h
      · exact ⟨_, _, by injection h with h; exact h.symm⟩
    · simp at h

theorem queryRun_requests {remote : List (String × JVal) → QueryResponse}
    {ns : Option String} {p : QueryParamsM} {req : List (String × JVal)}
    (h : req ∈ (queryRun remote ns p).2) : buildQueryBody ns p = .ok req := by
  cases hb : buildQueryBody ns p with
  | error e => simp [queryRun, hb] at h
  | ok body =>
    cases hm : p.minScore with
    | none =>
      simp only [queryRun, hb, hm, List.mem_singleton] at h
      rw [h]
    | some m =>
      simp only [queryRun, hb, hm, List.mem_singleton] at h
      rw [h]

theorem queryRun_minScore_run (remote : List (String × JVal) → QueryResponse)
    (ns : Option String) (p : QueryParamsM) (m : ℚ) (body : List (String × JVal))
    (hb : buildQueryBody ns p = .ok body) (hm : p.minScore = some m) :
    queryRun remote ns p
      = (Except.ok
          (QueryResponse.mk (remote body).nspace
            ((remote body).matchList.filter (fun r => decide (m ≤ r.score)))),
        [body]) := by
  simp [queryRun, hb, hm]

/-! Claim theorem for batched upsert. -/

/--
C2. The upsert method defaults the batch size to 50 when none is
supplied; for every positive batch size it splits the vectors into
consecutive chunks, preserving input order and content, with every
chunk nonempty and of length at most the batch size; the chunks are
posted strictly sequentially, the run posting every chunk exactly once
in order when every request succeeds, and stopping right after the
first failing request, whose error propagates, so that no later chunk
is sent. The final conjuncts evaluate the run on 120 vectors with batch
size 50: three calls of sizes 50, 50 and 20 in order, and, with a
remote failing on the second call, exactly two calls and the propagated
error.
-/
theorem c2_upsert_batching :
    effectiveBatchSize none = 50 ∧
    (∀ (bs : ℕ) (vs : List (List (String × JVal))), 0 < bs →
      (chunksOf bs vs).flatten = vs) ∧
    (∀ (bs : ℕ) (vs : List (List (String × JVal))), 0 < bs →
      ∀ c ∈ chunksOf bs vs, c.length ≤ bs ∧ c ≠ []) ∧
    (∀ (post : ℕ → UpsertCall → Except String Unit) (ns : Option String)
      (chunks : List (List (List (String × JVal)))) (i : ℕ),
      (∀ (j : ℕ) (hj : j < chunks.length),
        post (i + j) (mkUpsertCall ns chunks[j]) = .ok ()) →
      sendChunksFrom post ns i chunks = (chunks.map (mkUpsertCall ns), none)) ∧
    (∀ (post : ℕ → UpsertCall → Except String Unit) (ns : Option String)
      (pre : List (List (List (String × JVal)))) (c : List (List (String × JVal)))
      (rest : List (List (List (String × JVal)))) (i : ℕ) (e : String),
      (∀ (j : ℕ) (hj : j < pre.length),
        post (i + j) (mkUpsertCall ns pre[j]) = .ok ()) →
      post (i + pre.length) (mkUpsertCall ns c) = .error e →
      sendChunksFrom post ns i (pre ++ c :: rest)
        = ((pre ++ [c]).map (mkUpsertCall ns), some e)) ∧
    ((upsertRun (fun _ _ => .ok ()) none (List.replicate 120 []) (some 50)).1.map
        (fun call => call.vectors.length) = [50, 50, 20] ∧
      (upsertRun (fun _ _ => .ok ()) none (List.replicate 120 []) (some 50)).2 = none) ∧
    ((upsertRun (fun i _ => if i = 1 then .error "boom" else .ok ()) none
        (List.replicate 120 []) (some 50)).1.length = 2 ∧
      (upsertRun (fun i _ => if i = 1 then .error "boom" else .ok ()) none
        (List.replicate 120 []) (some 50)).2 = some "boom") := by
  refine ⟨rfl, ?_, ?_, sendChunksFrom_ok, sendChunksFrom_fail, by decide, by decide⟩
  · intro bs vs hbs
    exact chunksOfFuel_join hbs vs.length vs le_rfl
  · intro bs vs hbs c hc
    exact chunksOfFuel_sizes hbs vs.length vs c hc

/--
C2, witness: the chunking conjuncts evaluated at batch size 50 on three
vectors, the sequential-success conjunct on a single chunk with an
always-succeeding remote, and the failure conjunct on an immediately
failing remote.
-/
theorem c2_upsert_batching_witness :
    (chunksOf 50 (List.replicate 3 ([] : List (String × JVal)))).flatten
        = List.replicate 3 ([] : List (String × JVal)) ∧
    sendChunksFrom (fun _ _ => .ok ()) none 0 [[[("id", JVal.str "a")]]]
        = ([mkUpsertCall none [[("id", JVal.str "a")]]], none) ∧
    sendChunksFrom (fun _ _ => .error "down") none 0 [[[("id", JVal.str "a")]]]
        = ([mkUpsertCall none [[("id", JVal.str "a")]]], some "down") :=
  ⟨c2_upsert_batching.2.1 50 (List.replicate 3 []) (by decide),
    c2_upsert_batching.2.2.2.1 (fun _ _ => .ok ()) none [[[("id", JVal.str "a")]]] 0
      (fun _ _ => rfl),
    by
      have := c2_upsert_batching.2.2.2.2.1 (fun _ _ => .error "down") none []
        [[("id", JVal.str "a")]] [] 0 "down"
        (fun j hj => absurd hj (Nat.not_lt_zero j)) rfl
      simpa using this⟩

/-! Claim theorems for the query pipeline. -/

/--
C3. For every query call, every request body actually posted contains
neither a minScore nor a hybridAlpha key, since both are destructured
away before the body is assembled; when minScore is supplied as a
number, the result delivered to the caller is the received response
with exactly those matches whose score is at least minScore, kept in
the original response order, the filtering being applied locally after
the response arrives. The final conjunct evaluates the concrete
example: response scores nine tenths, four tenths and seven tenths with
minScore one half keep exactly the first and third matches in order.
-/
theorem c3_minScore_filtering :
    (∀ (remote : List (String × JVal) → QueryResponse) (ns : Option String)
      (p : QueryParamsM) (req : List (String × JVal)),
      req ∈ (queryRun remote ns p).2 →
      getField req "minScore" = none ∧ getField req "hybridAlpha" = none) ∧
    (∀ (remote : List (String × JVal) → QueryResponse) (ns : Option String)
      (p : QueryParamsM) (m : ℚ) (B : List (String × JVal)),
      p.minScore = some m → (queryRun remote ns p).2 = [B] →
      ∃ res : QueryResponse, (queryRun remote ns p).1 = Except.ok res ∧
        res.matchList.Sublist (remote B).matchList ∧
        (∀ x : QueryMatch,
          x ∈ res.matchList ↔ x ∈ (remote B).matchList ∧ m ≤ x.score)) ∧
    (queryRun
        (fun _ => QueryResponse.mk "ns"
          [QueryMatch.mk "a" (9 / 10) none none, QueryMatch.mk "b" (4 / 10) none none,
            QueryMatch.mk "c" (7 / 10) none none]) none
        (QueryParamsM.mk 3 none none none (.vec [1]) none (some (1 / 2)) none)).1
      = Except.ok (QueryResponse.mk "ns"
          [QueryMatch.mk "a" (9 / 10) none none,
            QueryMatch.mk "c" (7 / 10) none none]) := by
  refine ⟨?_, ?_, ?_⟩
  · intro remote ns p req hreq
    have hb := queryRun_requests hreq
    obtain ⟨vec, sv, rfl⟩ := buildQueryBody_ok hb
    constructor
    · rw [getField_assembleQueryBody (by simp) (by decide)]
      exact getField_restParams_minScore p vec sv
    · rw [getField_assembleQueryBody (by simp) (by decide)]
      exact getField_restParams_hybridAlpha p vec sv
  · intro remote ns p m B hm hB
    have hmem : B ∈ (queryRun remote ns p).2 := by
      rw [hB]
      exact List.mem_singleton_self B
    have hb := queryRun_requests hmem
    refine ⟨QueryResponse.mk (remote B).nspace
        ((remote B).matchList.filter (fun r => decide (m ≤ r.score))), ?_, ?_, ?_⟩
    · rw [queryRun_minScore_run _ _ _ _ _ hb hm]
    · exact List.filter_sublist _
    · intro x
      simp [List.mem_filter]
  · rw [queryRun_minScore_run
      (fun _ => QueryResponse.mk "ns"
        [QueryMatch.mk "a" (9 / 10) none none, QueryMatch.mk "b" (4 / 10) none none,
          QueryMatch.mk "c" (7 / 10) none none]) none
      (QueryParamsM.mk 3 none none none (.vec [1]) none (some (1 / 2)) none) (1 / 2)
      (assembleQueryBody none
        (QueryParamsM.mk 3 none none none (.vec [1]) none (some (1 / 2)) none)
        (some [1]) none) rfl rfl]
    norm_num [List.filter_cons]

/--
C3, witness: the filtering conjunct evaluated on a single-match
response with minScore zero.
-/
theorem c3_minScore_filtering_witness :
    ∃ res : QueryResponse,
      (queryRun (fun _ => QueryResponse.mk "w" [QueryMatch.mk "a" 1 none none]) none
          (QueryParamsM.mk 1 none none none (.vec [1]) none (some 0) none)).1
        = Except.ok res ∧
      res.matchList.Sublist [QueryMatch.mk "a" 1 none none] ∧
      (∀ x : QueryMatch,
        x ∈ res.matchList ↔ x ∈ [QueryMatch.mk "a" 1 none none] ∧ 0 ≤ x.score) :=
  c3_minScore_filtering.2.1
    (fun _ => QueryResponse.mk "w" [QueryMatch.mk "a" 1 none none]) none
    (QueryParamsM.mk 1 none none none (.vec [1]) none (some 0) none) 0
    (assembleQueryBody none
      (QueryParamsM.mk 1 none none none (.vec [1]) none (some 0) none) (some [1]) none)
    rfl rfl

/--
C7. For every query call supplying hybridAlpha: when the vector or the
sparseVector member is missing, the call fails with the hybrid
validation error and no request is posted; otherwise the posted request
body carries, under its vector and sparseVector keys, exactly the
normalized pair produced by the hybrid score normalizer on the supplied
vector, sparse vector and weight.
-/
theorem c7_hybrid_query :
    (∀ (remote : List (String × JVal) → QueryResponse) (ns : Option String)
      (p : QueryParamsM) (a : ℚ),
      p.hybridAlpha = some a → p.vector = none ∨ p.sparseVector = none →
      queryRun remote ns p
        = (Except.error "Hybrid queries require vector and sparseVector parameters.",
          [])) ∧
    (∀ (remote : List (String × JVal) → QueryResponse) (ns : Option String)
      (p : QueryParamsM) (a : ℚ) (v : List ℚ) (sv : SparseValues)
      (pair : List ℚ × SparseValues),
      p.hybridAlpha = some a → p.vector = some v → p.sparseVector = some sv →
      hybridScoreNorm v sv a = .ok pair →
      ∃ B : List (String × JVal), (queryRun remote ns p).2 = [B] ∧
        getField B "vector" = some (encodeNumList pair.1) ∧
        getField B "sparseVector" = some (encodeSparse pair.2)) := by
  constructor
  · intro remote ns p a ha hmiss
    have hb : buildQueryBody ns p
        = .error "Hybrid queries require vector and sparseVector parameters." := by
      rcases hmiss with h | h
      · cases hsv : p.sparseVector <;> simp [buildQueryBody, ha, h, hsv]
      · cases hv : p.vector <;> simp [buildQueryBody, ha, h, hv]
    simp [queryRun, hb]
  · intro remote ns p a v sv pair ha hv hsv hn
    have hb : buildQueryBody ns p
        = .ok (assembleQueryBody ns p (some pair.1) (some pair.2)) := by
      simp [buildQueryBody, ha, hv, hsv, hn]
    refine ⟨assembleQueryBody ns p (some pair.1) (some pair.2), ?_, ?_, ?_⟩
    · cases hm : p.minScore with
      | none => simp [queryRun, hb, hm]
      | some m => simp [queryRun, hb, hm]
    · rw [getField_assembleQueryBody (by simp) (by decide), getField_restParams_vector]
      rfl
    · rw [getField_assembleQueryBody (by simp) (by decide),
        getField_restParams_sparseVector]
      rfl

/--
C7, witness: a hybrid query by id fails with the validation error and
posts nothing, while a hybrid query with vector, sparse vector and
weight one posts a body carrying the normalized pair.
-/
theorem c7_hybrid_query_witness :
    queryRun (fun _ => QueryResponse.mk "n" []) none
        (QueryParamsM.mk 1 none none none (.byId "x") none none (some (1 / 2)))
      = (Except.error "Hybrid queries require vector and sparseVector parameters.",
        []) ∧
    ∃ B : List (String × JVal),
      (queryRun (fun _ => QueryResponse.mk "n" []) none
          (QueryParamsM.mk 1 none none none (.vec [2]) (some ⟨[0], [10]⟩) none
            (some 1))).2
        = [B] ∧
      getField B "vector" = some (encodeNumList [2]) ∧
      getField B "sparseVector" = some (encodeSparse ⟨[0], [0]⟩) :=
  ⟨c7_hybrid_query.1 (fun _ => QueryResponse.mk "n" []) none
      (QueryParamsM.mk 1 none none none (.byId "x") none none (some (1 / 2))) (1 / 2)
      rfl (Or.inl rfl),
    c7_hybrid_query.2 (fun _ => QueryResponse.mk "n" []) none
      (QueryParamsM.mk 1 none none none (.vec [2]) (some ⟨[0], [10]⟩) none (some 1)) 1
      [2] ⟨[0], [10]⟩ ([2], ⟨[0], [0]⟩) rfl rfl rfl (by norm_num [hybridScoreNorm])⟩

theorem c10_config_resolution_witness :
    resolveConfig (some "") none none none
        = .error "Missing Pinecone API key. Please provide one in the config or set the PINECONE_API_KEY environment variable." ∧
    resolveConfig (some "") (some "") (some "env-key") (some "env-url")
        = .ok ("env-key", "env-url") :=
  ⟨c10_config_resolution.2.2.2.1 (some "") none none none (by decide),
    c10_config_resolution.2.2.2.2.2 "env-key" "env-url" (by decide) (by decide)⟩

end PineconeModel
